import Mathlib

/-!
Verification development for the adbeacon targeting and caching core.

Strings of the Go source are modelled as `List Char` (`Str`); machine
strings are ASCII in all relevant data (country codes, os names,
application identifiers, cache keys), so `strings.ToLower` is modelled by
ASCII lowercasing and `strings.TrimSpace` by trimming the ASCII
whitespace characters recognised by `Char.isWhitespace`.

Go maps are modelled as association lists that preserve first-insertion
order; where the Go source iterates a map in unspecified order the model
fixes insertion order (the in-memory cache eviction sweep thus evicts
oldest-inserted entries first, the "simple FIFO" the source comments
describe).  Time is an abstract `Nat` instant; `time.Duration` values are
`Nat`s in the same unit, with `timeMinute` standing for `time.Minute`.
External effects (the Redis tier, the database repository) are modelled
as explicit parameters carrying their outcome.
-/

abbrev Str := List Char

/-- Model of Go `strings.TrimSpace` (ASCII whitespace). -/
def goTrimSpace (s : Str) : Str :=
  ((s.dropWhile Char.isWhitespace).reverse.dropWhile Char.isWhitespace).reverse

/-- Model of Go `strings.ToLower` (ASCII case folding). -/
def goToLower (s : Str) : Str := s.map Char.toLower

/-- `strings.ToLower(strings.TrimSpace(v))`, the normalization used by the
country, os, device_type and age_group processors. -/
def normLower (s : Str) : Str := goToLower (goTrimSpace s)

/-- `models.RuleType`: the two valid rule types (`"include"`, `"exclude"`). -/
inductive RuleType where
  | ruleTypeInclude
  | ruleTypeExclude
deriving DecidableEq, Repr

/-- `models.TargetingRule` (`internal/models/targeting.go`).  The surrogate id
and timestamps carry no matching semantics and are omitted. -/
structure TargetingRule where
  campaignID : Str
  dimension : Str
  ruleType : RuleType
  values : List Str
deriving DecidableEq, Repr

/-- `models.Campaign` (`internal/models/campaign.go`); timestamps omitted. -/
structure Campaign where
  id : Str
  name : Str
  imageURL : Str
  cta : Str
  status : Str
deriving DecidableEq, Repr

/-- `models.StatusActive`. -/
def StatusActive : Str := "ACTIVE".toList

/-- `Campaign.IsActive`. -/
def Campaign.IsActive (c : Campaign) : Bool := c.status = StatusActive

/-- `models.CampaignResponse`. -/
structure CampaignResponse where
  cid : Str
  img : Str
  cta : Str
deriving DecidableEq, Repr

/-- `Campaign.ToResponse`. -/
def Campaign.ToResponse (c : Campaign) : CampaignResponse :=
  { cid := c.id, img := c.imageURL, cta := c.cta }

/-- `models.CampaignWithRules`. -/
structure CampaignWithRules where
  campaign : Campaign
  rules : List TargetingRule
deriving DecidableEq, Repr

/-- `CampaignWithRules.IsActive` (promoted from the embedded `Campaign`). -/
def CampaignWithRules.IsActive (c : CampaignWithRules) : Bool := c.campaign.IsActive

/-- `CampaignWithRules.ToResponse`. -/
def CampaignWithRules.ToResponse (c : CampaignWithRules) : CampaignResponse :=
  c.campaign.ToResponse

/-- `models.DeliveryRequest` (`internal/models/request.go`). -/
structure DeliveryRequest where
  app : Str
  country : Str
  os : Str
deriving DecidableEq, Repr

/-- `DeliveryRequest.Validate` (`internal/models/request.go`, lines 17-31). -/
def DeliveryRequest.Validate (r : DeliveryRequest) : Option Str :=
  if r.country = [] then some "country is required".toList
  else if r.country.length ≠ 2 then some "country must be a 2-letter code".toList
  else if r.os = [] then some "os is required".toList
  else if r.app = [] then some "app is required".toList
  else none

/-- `DeliveryRequest.Normalize`: country/os lowercased and trimmed, app
identifier trimmed only. -/
def DeliveryRequest.Normalize (r : DeliveryRequest) : DeliveryRequest :=
  { app := goTrimSpace r.app, country := normLower r.country, os := normLower r.os }

/-- `models.DimensionProcessor`: the per-dimension capability record.
`ValidateRule` is an ingestion-time concern with no bearing on matching or
indexing and is not modelled. -/
structure DimensionProcessor where
  getName : Str
  getValue : DeliveryRequest → Str
  normalizeValue : Str → Str
  matchesRule : Str → TargetingRule → Bool

/-- Shared shape of the equality-based `MatchesRule` bodies: the normalized
request value equals some normalized rule value. -/
def matchesByNormalize (norm : Str → Str) (requestValue : Str) (rule : TargetingRule) : Bool :=
  rule.values.any (fun ruleValue => norm requestValue = norm ruleValue)

/-- `models.CountryProcessor`. -/
def CountryProcessor : DimensionProcessor where
  getName := "country".toList
  getValue := fun req => req.country
  normalizeValue := normLower
  matchesRule := matchesByNormalize normLower

/-- `models.OSProcessor`. -/
def OSProcessor : DimensionProcessor where
  getName := "os".toList
  getValue := fun req => req.os
  normalizeValue := normLower
  matchesRule := matchesByNormalize normLower

/-- `models.AppProcessor`: app identifiers are case-sensitive, normalization
only trims whitespace. -/
def AppProcessor : DimensionProcessor where
  getName := "app".toList
  getValue := fun req => req.app
  normalizeValue := goTrimSpace
  matchesRule := matchesByNormalize goTrimSpace

/-- `models.DeviceTypeProcessor` (example processor; `GetValue` returns the
empty string, as in the source). -/
def DeviceTypeProcessor : DimensionProcessor where
  getName := "device_type".toList
  getValue := fun _ => []
  normalizeValue := normLower
  matchesRule := matchesByNormalize normLower

/-- `models.AgeGroupProcessor` (example processor). -/
def AgeGroupProcessor : DimensionProcessor where
  getName := "age_group".toList
  getValue := fun _ => []
  normalizeValue := normLower
  matchesRule := matchesByNormalize normLower

/-- Model of Go `strconv.Atoi` restricted to its use on hour strings:
an optional sign followed by decimal digits. -/
def goAtoi (s : Str) : Option Int :=
  let digitsToNat : Str → Option Nat := fun d =>
    if d = [] then none
    else if d.all (fun c => decide ('0' ≤ c) && decide (c ≤ '9')) then
      some (d.foldl (fun n c => n * 10 + (c.toNat - 48)) 0)
    else none
  match s with
  | '+' :: rest => (digitsToNat rest).map Int.ofNat
  | '-' :: rest => (digitsToNat rest).map (fun n => -(n : Int))
  | _ => (digitsToNat s).map Int.ofNat

/-- `TimeOfDayProcessor.MatchesRule`: the request value is the current hour;
rule values are single hours (`"14"`) or inclusive ranges (`"9-17"`). -/
def timeOfDayMatchesRule (requestValue : Str) (rule : TargetingRule) : Bool :=
  match goAtoi requestValue with
  | none => false
  | some currentHour =>
    rule.values.any fun ruleValue0 =>
      let ruleValue := goTrimSpace ruleValue0
      if ruleValue.contains '-' then
        match List.splitOn '-' ruleValue with
        | [p1, p2] =>
          match goAtoi p1, goAtoi p2 with
          | some lo, some hi => decide (lo ≤ currentHour ∧ currentHour ≤ hi)
          | _, _ => false
        | _ => false
      else
        match goAtoi ruleValue with
        | some ruleHour => decide (currentHour = ruleHour)
        | none => false

/-- `models.TimeOfDayProcessor` (example processor).  `GetValue` reads the
ambient clock (`time.Now().Hour()`); the current hour is passed explicitly. -/
def TimeOfDayProcessor (currentHour : Nat) : DimensionProcessor where
  getName := "time_of_day".toList
  getValue := fun _ => (toString currentHour).toList
  normalizeValue := goTrimSpace
  matchesRule := timeOfDayMatchesRule

/-- A dimension registry is the name-keyed collection of processors; lookup
is by `GetName`.  `models.NewDimensionRegistry` registers the three
built-ins. -/
def NewDimensionRegistry : List DimensionProcessor :=
  [CountryProcessor, OSProcessor, AppProcessor]

/-- `DimensionRegistry.GetProcessor`. -/
def GetProcessor (registry : List DimensionProcessor) (dimensionName : Str) :
    Option DimensionProcessor :=
  registry.find? (fun p => p.getName = dimensionName)

/-- The distinct dimension names of a rule list, in first-occurrence order:
the key set of the `rulesByDimension` map built by
`CampaignMatcher.MatchesRequest`. -/
def rulesDimensions (rules : List TargetingRule) : List Str :=
  rules.foldl (fun acc r => if r.dimension ∈ acc then acc else acc ++ [r.dimension]) []

/-- The group of rules sharing a dimension: the value stored at key `d` by
the `rulesByDimension` map. -/
def rulesForDimension (rules : List TargetingRule) (d : Str) : List TargetingRule :=
  rules.filter (fun r => r.dimension = d)

/-- `CampaignMatcher.dimensionMatches` (lines 121-162 of the matcher file). -/
def dimensionMatches (req : DeliveryRequest) (rules : List TargetingRule)
    (processor : DimensionProcessor) : Bool :=
  let includeRules := rules.filter (fun r => r.ruleType = RuleType.ruleTypeInclude)
  let excludeRules := rules.filter (fun r => r.ruleType = RuleType.ruleTypeExclude)
  let requestValue := processor.getValue req
  if requestValue = [] then
    includeRules.isEmpty
  else
    (includeRules.isEmpty || includeRules.any (processor.matchesRule requestValue)) &&
      !(excludeRules.any (processor.matchesRule requestValue))

/-- `CampaignMatcher.MatchesRequest` (lines 86-118): inactive campaigns never
match; rule-less campaigns always match; otherwise every dimension group with
a registered processor must pass, unknown dimensions are skipped. -/
def MatchesRequest (registry : List DimensionProcessor) (campaign : CampaignWithRules)
    (req : DeliveryRequest) : Bool :=
  if !campaign.IsActive then false
  else if campaign.rules.isEmpty then true
  else
    (rulesDimensions campaign.rules).all fun dimensionName =>
      match GetProcessor registry dimensionName with
      | none => true
      | some processor => dimensionMatches req (rulesForDimension campaign.rules dimensionName) processor

/-- The delivery-service filtering step: keep the campaigns the matcher
admits (`deliveryService.GetCampaigns`, filtering loop). -/
def matchFilter (campaigns : List CampaignWithRules) (req : DeliveryRequest) :
    List CampaignWithRules :=
  campaigns.filter (fun c => MatchesRequest NewDimensionRegistry c req)

/-- Claim-side reading of one dimension-group check, phrased (as the spec
does) through normalized-value containment: when the request value is empty
the group passes iff it has no include-rules; otherwise the include-set is
empty or some include-rule's normalized values contain the normalized
request value, and no exclude-rule's normalized values contain it. -/
def specDimensionPasses (processor : DimensionProcessor) (req : DeliveryRequest)
    (group : List TargetingRule) : Prop :=
  let includes := group.filter (fun r => r.ruleType = RuleType.ruleTypeInclude)
  let excludes := group.filter (fun r => r.ruleType = RuleType.ruleTypeExclude)
  let requestValue := processor.getValue req
  if requestValue = [] then includes = []
  else
    (includes = [] ∨ ∃ r ∈ includes,
        processor.normalizeValue requestValue ∈ r.values.map processor.normalizeValue) ∧
      ∀ r ∈ excludes,
        processor.normalizeValue requestValue ∉ r.values.map processor.normalizeValue

/-- Claim-side reading of the whole matching algorithm: an inactive campaign
never matches, no rules always match, otherwise every dimension group whose
dimension has a registered processor must pass. -/
def specMatchesRequest (registry : List DimensionProcessor) (c : CampaignWithRules)
    (req : DeliveryRequest) : Prop :=
  c.IsActive = true ∧
  (c.rules = [] ∨
    ∀ d ∈ rulesDimensions c.rules, ∀ p, GetProcessor registry d = some p →
      specDimensionPasses p req (rulesForDimension c.rules d))

/-- `TargetingRule.NormalizeValues` (`internal/models/targeting.go`): resolve
the rule's dimension in the registry and normalize every value with that
processor; unknown dimensions fall back to lowercase-and-trim.  The global
registry holds the three built-ins. -/
def TargetingRule.NormalizeValues (r : TargetingRule) : List Str :=
  match GetProcessor NewDimensionRegistry r.dimension with
  | none => r.values.map normLower
  | some p => r.values.map p.normalizeValue

/-- One inverted-index map (`map[string][]string` in the source): an
association list from value to posting list, in first-insertion order. -/
abbrev Index := List (Str × List Str)

/-- `index[value] = append(index[value], campaignID)`: extend the posting
list at `value`, creating it when absent. -/
def idxAppend (idx : Index) (value : Str) (campaignID : Str) : Index :=
  if idx.any (fun e => e.1 = value) then
    idx.map (fun e => if e.1 = value then (e.1, e.2 ++ [campaignID]) else e)
  else idx ++ [(value, [campaignID])]

/-- Read a posting list; `none` models the absent map key (and the cache
miss a reader of the materialized index observes). -/
def idxLookup (idx : Index) (value : Str) : Option (List Str) :=
  (idx.find? (fun e => e.1 = value)).map (fun e => e.2)

/-- Membership of a campaign identifier in the posting list at a value. -/
def IdxMem (idx : Index) (value campaignID : Str) : Prop :=
  ∃ ids, idxLookup idx value = some ids ∧ campaignID ∈ ids

/-- The three per-dimension inverted indexes built by
`CachedRepository.buildAndCacheIndexes`. -/
structure IndexState where
  countryIndex : Index
  osIndex : Index
  appIndex : Index
deriving DecidableEq, Repr

/-- The empty index state. -/
def emptyIndexState : IndexState := ⟨[], [], []⟩

/-- The per-rule step of `buildAndCacheIndexes` (lines 177-196): only
include-rules are indexed; country and os values are indexed after
`NormalizeValues`, app values are indexed raw. -/
def indexRule (campaignID : Str) (st : IndexState) (rule : TargetingRule) : IndexState :=
  if rule.ruleType ≠ RuleType.ruleTypeInclude then st
  else if rule.dimension = "country".toList then
    { st with countryIndex :=
        rule.NormalizeValues.foldl (fun idx v => idxAppend idx v campaignID) st.countryIndex }
  else if rule.dimension = "os".toList then
    { st with osIndex :=
        rule.NormalizeValues.foldl (fun idx v => idxAppend idx v campaignID) st.osIndex }
  else if rule.dimension = "app".toList then
    { st with appIndex :=
        rule.values.foldl (fun idx v => idxAppend idx v campaignID) st.appIndex }
  else st

/-- The per-campaign step of `buildAndCacheIndexes`: inactive campaigns
contribute nothing. -/
def indexCampaign (st : IndexState) (c : CampaignWithRules) : IndexState :=
  if !c.IsActive then st
  else c.rules.foldl (indexRule c.campaign.id) st

/-- `CachedRepository.buildAndCacheIndexes` (index-construction part,
lines 166-197). -/
def buildAndCacheIndexes (campaigns : List CampaignWithRules) : IndexState :=
  campaigns.foldl indexCampaign emptyIndexState

/-- The cache contents the cached repository reads: the active-campaigns
snapshot entry and the per-dimension indexes. -/
structure CacheState where
  activeCampaigns : Option (List CampaignWithRules)
  indexes : IndexState
deriving DecidableEq, Repr

/-- `Cache.GetCampaignIndex` as the cached repository uses it: a posting-list
read keyed by (dimension, value); `none` is the miss/error outcome. -/
def GetCampaignIndex (st : CacheState) (dimension value : Str) : Option (List Str) :=
  if dimension = "country".toList then idxLookup st.indexes.countryIndex value
  else if dimension = "os".toList then idxLookup st.indexes.osIndex value
  else if dimension = "app".toList then idxLookup st.indexes.appIndex value
  else none

/-- `CachedRepository.unionSlices`: concatenation with first-occurrence
deduplication (the `seen` map). -/
def unionSlices (slices : List (List Str)) : List Str :=
  slices.foldl
    (fun result s =>
      s.foldl (fun result item => if item ∈ result then result else result ++ [item]) result)
    []

/-- `CachedRepository.getCandidateIDs` (lines 79-118): query the posting list
for each non-empty request dimension, keep the lookups that succeed with a
non-empty list, error (`none`) when no set was collected, otherwise union. -/
def getCandidateIDs (st : CacheState) (req : DeliveryRequest) : Option (List Str) :=
  let fromDim : Str → Str → List (List Str) := fun dimension v =>
    if v ≠ [] then
      match GetCampaignIndex st dimension v with
      | some ids => if ids ≠ [] then [ids] else []
      | none => []
    else []
  let candidateSets :=
    fromDim "country".toList req.country ++ fromDim "os".toList req.os ++
      fromDim "app".toList req.app
  if candidateSets = [] then none
  else some (unionSlices candidateSets)

/-- The `campaignMap[campaign.ID] = campaign` lookup of
`getCampaignsByIDs`: later snapshot entries overwrite earlier ones. -/
def lastWithID (campaigns : List CampaignWithRules) (id : Str) : Option CampaignWithRules :=
  campaigns.foldl (fun acc c => if c.campaign.id = id then some c else acc) none

/-- `CachedRepository.getCampaignsByIDs` (lines 121-146) given the snapshot
the cache (or the source) returned. -/
def getCampaignsByIDs (allCampaigns : List CampaignWithRules) (campaignIDs : List Str) :
    List CampaignWithRules :=
  campaignIDs.filterMap (lastWithID allCampaigns)

/-- The warmed cache: snapshot present, indexes materialized from it. -/
def warmCache (snapshot : List CampaignWithRules) : CacheState :=
  { activeCampaigns := some snapshot, indexes := buildAndCacheIndexes snapshot }

/-- `CachedRepository.GetCampaignsByRequest` (lines 61-76) on a warmed
cache: candidate lookup, then id-filtering; on index-lookup failure fall
back to the full snapshot (`GetActiveCampaignsWithRules` hits the cache). -/
def GetCampaignsByRequest (snapshot : List CampaignWithRules) (req : DeliveryRequest) :
    List CampaignWithRules :=
  match getCandidateIDs (warmCache snapshot) req with
  | none => snapshot
  | some candidateIDs =>
    if candidateIDs ≠ [] then getCampaignsByIDs snapshot candidateIDs else []

/-- Payloads stored in the in-memory tier (`cacheItem.data`, an `any` holding
either a campaign snapshot or a posting list). -/
inductive Payload where
  | campaigns (cs : List CampaignWithRules)
  | ids (campaignIDs : List Str)
deriving DecidableEq, Repr

/-- `cacheItem` of `memory_cache.go`. -/
structure CacheItem where
  data : Payload
  expiresAt : Nat
deriving DecidableEq, Repr

/-- `cacheItem.isExpired`: `time.Now().After(expiresAt)` is strict. -/
def CacheItem.isExpired (now : Nat) (ci : CacheItem) : Bool := decide (ci.expiresAt < now)

/-- `memoryCache`: the bounded in-memory tier.  Its Go map is modelled as an
association list in insertion order; the eviction sweep iterates in that
order (one admissible iteration order of the unordered Go map). -/
structure MemoryCache where
  items : List (Str × CacheItem)
  maxSize : Nat
deriving DecidableEq, Repr

/-- `memoryCache.size`. -/
def MemoryCache.size (mc : MemoryCache) : Nat := mc.items.length

/-- `memoryCache.evictIfNeeded` (lines 108-127): drop expired entries, then
if still over `maxSize` delete `length - maxSize` entries in the order of
the Go map iteration, which is unspecified.  The iteration order of a sweep
is therefore an explicit input: `victims` lists the keys the iteration
visits first; entries carrying those keys are deleted first and the
remaining entries (in list order) fill the deletion count when the victims
run out.  Every concrete sweep outcome — the deletion of an arbitrary
`length - maxSize`-subset of the entries — is obtained by choosing
`victims` as the keys of that subset, so quantifying over `victims` covers
every admissible iteration order. -/
def MemoryCache.evictIfNeeded (now : Nat) (victims : List Str) (mc : MemoryCache) :
    MemoryCache :=
  let items := mc.items.filter (fun e => !(e.2.isExpired now))
  let items :=
    if items.length > mc.maxSize then
      (items.filter (fun e => decide (e.1 ∈ victims)) ++
        items.filter (fun e => !(decide (e.1 ∈ victims)))).drop
        (items.length - mc.maxSize)
    else items
  { mc with items := items }

/-- The shared body of the memory-tier setters: the Go map assignment binds
the key to a fresh item expiring at `now + ttl` (the association list keeps
one entry per key; the set of entries an over-capacity sweep deletes is
chosen through the sweep's `victims` input, so no list position shields an
entry — in particular the sweep can delete the key that was just written),
then the eviction sweep runs. -/
def MemoryCache.setItem (now : Nat) (key : Str) (data : Payload) (ttl : Nat)
    (victims : List Str) (mc : MemoryCache) : MemoryCache :=
  MemoryCache.evictIfNeeded now victims
    { mc with items := mc.items.filter (fun e => e.1 ≠ key) ++ [(key, ⟨data, now + ttl⟩)] }

/-- The fixed snapshot key of the memory tier. -/
def activeCampaignsKey : Str := "active_campaigns".toList

/-- `memoryCache.setActiveCampaigns` (lines 58-69). -/
def MemoryCache.setActiveCampaigns (now : Nat) (campaigns : List CampaignWithRules)
    (ttl : Nat) (victims : List Str) (mc : MemoryCache) : MemoryCache :=
  MemoryCache.setItem now activeCampaignsKey (Payload.campaigns campaigns) ttl victims mc

/-- `memoryCache.setCampaignIndex` (lines 86-97). -/
def MemoryCache.setCampaignIndex (now : Nat) (key : Str) (campaignIDs : List Str)
    (ttl : Nat) (victims : List Str) (mc : MemoryCache) : MemoryCache :=
  MemoryCache.setItem now key (Payload.ids campaignIDs) ttl victims mc

/-- The shared body of the memory-tier getters: absent or expired keys
are misses. -/
def MemoryCache.getItem (now : Nat) (key : Str) (mc : MemoryCache) : Option Payload :=
  match mc.items.find? (fun e => e.1 = key) with
  | some e => if e.2.isExpired now then none else some e.2.data
  | none => none

/-- `memoryCache.getActiveCampaigns` (lines 44-55), including the type
assertion on the stored payload. -/
def MemoryCache.getActiveCampaigns (now : Nat) (mc : MemoryCache) :
    List CampaignWithRules × Bool :=
  match MemoryCache.getItem now activeCampaignsKey mc with
  | some (Payload.campaigns cs) => (cs, true)
  | some _ => ([], false)
  | none => ([], false)

/-- `memoryCache.getCampaignIndex` (lines 72-83). -/
def MemoryCache.getCampaignIndex (now : Nat) (key : Str) (mc : MemoryCache) :
    List Str × Bool :=
  match MemoryCache.getItem now key mc with
  | some (Payload.ids ids) => (ids, true)
  | some _ => ([], false)
  | none => ([], false)

/-- `memoryCache.clear`. -/
def MemoryCache.clear (mc : MemoryCache) : MemoryCache := { mc with items := [] }

/-- `cache.CacheStats`.  The float64 hit ratio is modelled as an exact
rational. -/
structure CacheStats where
  hits : Nat
  misses : Nat
  errors : Nat
  hitRatio : ℚ
  totalOps : Nat
  lastUpdated : Nat
deriving DecidableEq, Repr

/-- `HybridCache.recordHit`. -/
def recordHit (s : CacheStats) : CacheStats :=
  { s with hits := s.hits + 1, totalOps := s.totalOps + 1 }

/-- `HybridCache.recordMiss`. -/
def recordMiss (s : CacheStats) : CacheStats :=
  { s with misses := s.misses + 1, totalOps := s.totalOps + 1 }

/-- `HybridCache.recordError`. -/
def recordError (s : CacheStats) : CacheStats :=
  { s with errors := s.errors + 1 }

/-- The hybrid cache's own state: the optional local tier and the counters.
The Redis tier lives outside the process; each operation takes the outcome
of its Redis interaction as an explicit argument (`none` = tier disabled). -/
structure HybridState where
  memory : Option MemoryCache
  stats : CacheStats
deriving DecidableEq, Repr

/-- `HybridCache.SetActiveCampaigns` (write fan-out): the local tier is
written unconditionally; `redisWrite = some false` is a failed shared-tier
write, which increments the error counter and makes the operation return an
error (the second component) to its caller. -/
def HybridCache.SetActiveCampaigns (now : Nat) (campaigns : List CampaignWithRules)
    (ttl : Nat) (victims : List Str) (redisWrite : Option Bool) (hc : HybridState) :
    HybridState × Bool :=
  let hc :=
    match hc.memory with
    | some mc =>
      { hc with
          memory := some (MemoryCache.setActiveCampaigns now campaigns ttl victims mc) }
    | none => hc
  match redisWrite with
  | some false => ({ hc with stats := recordError hc.stats }, true)
  | _ => (hc, false)

/-- Cache key grammar for posting lists: `index:<dimension>:<value>`. -/
def indexKey (dimension value : Str) : Str :=
  "index:".toList ++ dimension ++ ":".toList ++ value

/-- `HybridCache.SetCampaignIndex` (write fan-out, same shape as
`SetActiveCampaigns`). -/
def HybridCache.SetCampaignIndex (now : Nat) (dimension value : Str)
    (campaignIDs : List Str) (ttl : Nat) (victims : List Str) (redisWrite : Option Bool)
    (hc : HybridState) : HybridState × Bool :=
  let key := indexKey dimension value
  let hc :=
    match hc.memory with
    | some mc =>
      { hc with
          memory := some (MemoryCache.setCampaignIndex now key campaignIDs ttl victims mc) }
    | none => hc
  match redisWrite with
  | some false => ({ hc with stats := recordError hc.stats }, true)
  | _ => (hc, false)

/-- `HybridCache.GetActiveCampaigns` (read fan-out): local first, then the
shared tier (whose outcome is `redisGet`: `none` = disabled, `some none` =
miss or error, `some (some cs)` = hit, which warms the local tier with the
default ttl), else a recorded miss. -/
def HybridCache.GetActiveCampaigns (now defaultTTL : Nat) (victims : List Str)
    (redisGet : Option (Option (List CampaignWithRules))) (hc : HybridState) :
    HybridState × Option (List CampaignWithRules) :=
  let redisStep : HybridState → HybridState × Option (List CampaignWithRules) := fun hc =>
    match redisGet with
    | some (some campaigns) =>
      let hc := { hc with stats := recordHit hc.stats }
      let hc :=
        match hc.memory with
        | some mc =>
          { hc with
              memory :=
                some (MemoryCache.setActiveCampaigns now campaigns defaultTTL victims mc) }
        | none => hc
      (hc, some campaigns)
    | _ => ({ hc with stats := recordMiss hc.stats }, none)
  match hc.memory with
  | some mc =>
    let found := MemoryCache.getActiveCampaigns now mc
    if found.2 then ({ hc with stats := recordHit hc.stats }, some found.1)
    else redisStep hc
  | none => redisStep hc

/-- `HybridCache.GetCampaignIndex` (read fan-out for posting lists). -/
def HybridCache.GetCampaignIndex (now defaultTTL : Nat) (dimension value : Str)
    (victims : List Str) (redisGet : Option (Option (List Str))) (hc : HybridState) :
    HybridState × Option (List Str) :=
  let key := indexKey dimension value
  let redisStep : HybridState → HybridState × Option (List Str) := fun hc =>
    match redisGet with
    | some (some campaignIDs) =>
      let hc := { hc with stats := recordHit hc.stats }
      let hc :=
        match hc.memory with
        | some mc =>
          { hc with
              memory :=
                some (MemoryCache.setCampaignIndex now key campaignIDs defaultTTL victims mc) }
        | none => hc
      (hc, some campaignIDs)
    | _ => ({ hc with stats := recordMiss hc.stats }, none)
  match hc.memory with
  | some mc =>
    let found := MemoryCache.getCampaignIndex now key mc
    if found.2 then ({ hc with stats := recordHit hc.stats }, some found.1)
    else redisStep hc
  | none => redisStep hc

/-- `HybridCache.GetStats`: the hit ratio is recomputed only when
`totalOps > 0`; otherwise the stored stats are returned unchanged. -/
def HybridCache.GetStats (hc : HybridState) : CacheStats :=
  let stats := hc.stats
  if stats.totalOps > 0 then
    { stats with hitRatio := (stats.hits : ℚ) / (stats.totalOps : ℚ) }
  else stats

/-- `time.Minute` in nanoseconds, the unit of Go durations. -/
def timeMinute : Nat := 60000000000

/-- The local-tier effect of the cached repository's detached materialization
(`GetActiveCampaignsWithRules` miss path plus the cache-writing loops of
`buildAndCacheIndexes`, lines 199-215): write the snapshot with `ttl`, then
every posting list with `ttl + time.Minute`. -/
def writeIndexLists (now indexTTL : Nat) (dimension : Str) (idx : Index)
    (victims : List Str) (mc : MemoryCache) : MemoryCache :=
  idx.foldl
    (fun mc e =>
      MemoryCache.setCampaignIndex now (indexKey dimension e.1) e.2 indexTTL victims mc) mc

/-- The materialization task applied to the local tier. -/
def materializeLocal (now ttl : Nat) (campaigns : List CampaignWithRules)
    (victims : List Str) (mc : MemoryCache) : MemoryCache :=
  let mc := MemoryCache.setActiveCampaigns now campaigns ttl victims mc
  let st := buildAndCacheIndexes campaigns
  let indexTTL := ttl + timeMinute
  let mc := writeIndexLists now indexTTL "country".toList st.countryIndex victims mc
  let mc := writeIndexLists now indexTTL "os".toList st.osIndex victims mc
  writeIndexLists now indexTTL "app".toList st.appIndex victims mc

/-- `deliveryService.GetCampaigns`: validate, normalize, fetch the snapshot
(`repoResult` is the repository outcome), filter with the matcher, project.
The second component records whether the repository was invoked. -/
def deliveryServiceGetCampaigns (repoResult : Except Unit (List CampaignWithRules))
    (req : DeliveryRequest) : Except Str (List CampaignResponse) × Bool :=
  match req.Validate with
  | some e => (Except.error e, false)
  | none =>
    let req := req.Normalize
    match repoResult with
    | Except.error _ => (Except.error "failed to retrieve campaigns".toList, true)
    | Except.ok campaigns =>
      (Except.ok ((matchFilter campaigns req).map CampaignWithRules.ToResponse), true)

/-- The scenario-4 campaign: include os ∈ \x7bandroid\x7d, include
app ∈ \x7bcom.gametion.ludokinggame\x7d. -/
def subwaysurfer : CampaignWithRules :=
  { campaign :=
      { id := "subwaysurfer".toList, name := "Subway Surfer".toList,
        imageURL := "https://somelink3".toList, cta := "Play".toList,
        status := StatusActive }
    rules :=
      [ { campaignID := "subwaysurfer".toList, dimension := "os".toList,
          ruleType := RuleType.ruleTypeInclude, values := ["android".toList] },
        { campaignID := "subwaysurfer".toList, dimension := "app".toList,
          ruleType := RuleType.ruleTypeInclude,
          values := ["com.gametion.ludokinggame".toList] } ] }

/-- The scenario-4 snapshot. -/
def scenario4Snapshot : List CampaignWithRules := [subwaysurfer]

/-- The scenario-4 request as the delivery service hands it to the
repository: validated and normalized. -/
def scenario4Request : DeliveryRequest :=
  DeliveryRequest.Normalize
    { app := "com.gametion.ludokinggame".toList, country := "IN".toList,
      os := "Android".toList }

/-- An active campaign with no rules: it matches every request but, having
no include-rules, appears in no posting list. -/
def freebie : CampaignWithRules :=
  { campaign :=
      { id := "freebie".toList, name := "Freebie".toList,
        imageURL := "https://somelink4".toList, cta := "Get".toList,
        status := StatusActive }
    rules := [] }

/-- An active campaign targeting country `in`, so that the country lookup of
the scenario-4 request also succeeds. -/
def indiaOnly : CampaignWithRules :=
  { campaign :=
      { id := "indiaonly".toList, name := "India Only".toList,
        imageURL := "https://somelink5".toList, cta := "Go".toList,
        status := StatusActive }
    rules :=
      [ { campaignID := "indiaonly".toList, dimension := "country".toList,
          ruleType := RuleType.ruleTypeInclude, values := ["in".toList] } ] }

/-- Snapshot refuting the fast-path/full-path equivalence. -/
def c2Snapshot : List CampaignWithRules := [subwaysurfer, freebie, indiaOnly]

/-- An active campaign whose only include-rule is an app rule with a
whitespace-padded value. -/
def padApp : CampaignWithRules :=
  { campaign :=
      { id := "padapp".toList, name := "Pad App".toList,
        imageURL := "https://somelink6".toList, cta := "Tap".toList,
        status := StatusActive }
    rules :=
      [ { campaignID := "padapp".toList, dimension := "app".toList,
          ruleType := RuleType.ruleTypeInclude, values := [" com.x".toList] } ] }

/-- Unfolded form of `Char.toLower`. -/
theorem toLower_def (c : Char) :
    c.toLower = if c.toNat ≥ 65 ∧ c.toNat ≤ 90 then Char.ofNat (c.toNat + 32) else c := rfl

/-- ASCII lowercasing preserves whitespace-ness of a character. -/
theorem isWhitespace_toLower (c : Char) : c.toLower.isWhitespace = c.isWhitespace := by
  rw [toLower_def]
  by_cases h : c.toNat ≥ 65 ∧ c.toNat ≤ 90
  · rw [if_pos h]
    obtain ⟨h1, h2⟩ := h
    have hr : c.isWhitespace = false := by
      unfold Char.isWhitespace
      have hsp : c ≠ ' ' := by rintro rfl; revert h1; decide
      have htab : c ≠ '\t' := by rintro rfl; revert h1; decide
      have hcr : c ≠ '\x0d' := by rintro rfl; revert h1; decide
      have hnl : c ≠ '\n' := by rintro rfl; revert h1; decide
      simp [hsp, htab, hcr, hnl]
    rw [hr]
    generalize c.toNat = n at h1 h2
    interval_cases n <;> decide
  · rw [if_neg h]

/-- ASCII lowercasing is idempotent on characters. -/
theorem toLower_toLower (c : Char) : c.toLower.toLower = c.toLower := by
  by_cases h : c.toNat ≥ 65 ∧ c.toNat ≤ 90
  · have hc : c.toLower = Char.ofNat (c.toNat + 32) := by rw [toLower_def, if_pos h]
    rw [hc]
    obtain ⟨h1, h2⟩ := h
    generalize c.toNat = n at h1 h2 ⊢
    interval_cases n <;> decide
  · have hc : c.toLower = c := by rw [toLower_def, if_neg h]
    rw [hc, hc]

/-- The head of a `dropWhile` result does not satisfy the predicate. -/
theorem head?_dropWhile (p : Char → Bool) (l : List Char) (c : Char)
    (h : (l.dropWhile p).head? = some c) : p c = false := by
  induction l with
  | nil => simp at h
  | cons x xs ih =>
    rw [List.dropWhile_cons] at h
    by_cases hx : p x = true
    · rw [if_pos hx] at h; exact ih h
    · rw [if_neg hx] at h
      simp only [List.head?_cons, Option.some.injEq] at h
      subst h
      exact Bool.eq_false_iff.mpr hx

/-- `dropWhile` is the identity when the head fails the predicate. -/
theorem dropWhile_eq_self_of_head (p : Char → Bool) (l : List Char)
    (h : ∀ c, l.head? = some c → p c = false) : l.dropWhile p = l := by
  cases l with
  | nil => rfl
  | cons x xs =>
    rw [List.dropWhile_cons, if_neg]
    rw [h x rfl]
    simp

/-- `goTrimSpace` written with Mathlib's `rdropWhile`. -/
theorem goTrimSpace_eq (s : Str) :
    goTrimSpace s = List.rdropWhile Char.isWhitespace (List.dropWhile Char.isWhitespace s) := rfl

/-- A trimmed string has no leading whitespace. -/
theorem dropWhile_goTrim (s : Str) :
    List.dropWhile Char.isWhitespace (goTrimSpace s) = goTrimSpace s := by
  apply dropWhile_eq_self_of_head
  intro c hc
  rw [goTrimSpace_eq] at hc
  obtain ⟨r, hr⟩ :=
    List.rdropWhile_prefix Char.isWhitespace (List.dropWhile Char.isWhitespace s)
  have ha : (List.dropWhile Char.isWhitespace s).head? = some c := by
    rw [← hr, List.head?_append, hc]
    rfl
  exact head?_dropWhile _ _ _ ha

/-- `strings.TrimSpace` is idempotent. -/
theorem goTrimSpace_idem (s : Str) : goTrimSpace (goTrimSpace s) = goTrimSpace s := by
  conv_lhs => rw [goTrimSpace_eq, dropWhile_goTrim, goTrimSpace_eq]
  exact List.rdropWhile_idempotent _ _

/-- Whitespace-ness is invariant under lowercasing, as a predicate equation. -/
theorem ws_comp_toLower : (Char.isWhitespace ∘ Char.toLower) = Char.isWhitespace := by
  funext c; exact isWhitespace_toLower c

/-- Trimming commutes with lowercasing. -/
theorem goTrimSpace_goToLower (s : Str) :
    goTrimSpace (goToLower s) = goToLower (goTrimSpace s) := by
  unfold goTrimSpace goToLower
  rw [List.dropWhile_map, ws_comp_toLower, ← List.map_reverse, List.dropWhile_map,
    ws_comp_toLower, List.map_reverse]

/-- `strings.ToLower` is idempotent. -/
theorem goToLower_idem (s : Str) : goToLower (goToLower s) = goToLower s := by
  unfold goToLower
  rw [List.map_map]
  have : (Char.toLower ∘ Char.toLower) = Char.toLower := by
    funext c; exact toLower_toLower c
  rw [this]

/-- The lowercase-and-trim normalization is idempotent. -/
theorem normLower_idem (s : Str) : normLower (normLower s) = normLower s := by
  unfold normLower
  rw [goTrimSpace_goToLower, goTrimSpace_idem, goToLower_idem]

/-- The equality-based `MatchesRule` bodies decide normalized-value
containment. -/
theorem matchesByNormalize_iff (norm : Str → Str) (rv : Str) (r : TargetingRule) :
    matchesByNormalize norm rv r = true ↔ norm rv ∈ r.values.map norm := by
  unfold matchesByNormalize
  rw [List.any_eq_true, List.mem_map]
  constructor
  · rintro ⟨v, hv, h⟩
    exact ⟨v, hv, (of_decide_eq_true h).symm⟩
  · rintro ⟨v, hv, h⟩
    exact ⟨v, hv, decide_eq_true h.symm⟩

/-- `dimensionMatches` agrees with the containment-phrased group check for
any processor whose `MatchesRule` decides normalized-value containment. -/
theorem dimensionMatches_iff_spec (p : DimensionProcessor) (req : DeliveryRequest)
    (rules : List TargetingRule)
    (hp : ∀ rv r, p.matchesRule rv r = true ↔
      p.normalizeValue rv ∈ r.values.map p.normalizeValue) :
    dimensionMatches req rules p = true ↔ specDimensionPasses p req rules := by
  unfold dimensionMatches specDimensionPasses
  by_cases hv : p.getValue req = []
  · simp only [if_pos hv, List.isEmpty_iff]
  · simp only [if_neg hv, Bool.and_eq_true, Bool.or_eq_true, Bool.not_eq_true',
      List.isEmpty_iff, List.any_eq_true, List.any_eq_false, hp]

/-- For a registry of processors whose `MatchesRule` decides normalized-value
containment, `MatchesRequest` coincides with the claim-side algorithm. -/
theorem MatchesRequest_iff_spec (registry : List DimensionProcessor)
    (hreg : ∀ p ∈ registry, ∀ rv r, p.matchesRule rv r = true ↔
      p.normalizeValue rv ∈ r.values.map p.normalizeValue)
    (c : CampaignWithRules) (req : DeliveryRequest) :
    MatchesRequest registry c req = true ↔ specMatchesRequest registry c req := by
  unfold MatchesRequest specMatchesRequest
  cases hA : c.IsActive with
  | false => simp [hA]
  | true =>
    simp only [hA, Bool.not_true, Bool.false_eq_true, if_false, true_and]
    by_cases hr : c.rules = []
    · simp [hr]
    · rw [if_neg (by simpa [List.isEmpty_iff] using hr)]
      simp only [List.all_eq_true]
      constructor
      · intro h
        right
        intro d hd q hq
        have := h d hd
        rw [hq] at this
        have hqmem : q ∈ registry := List.mem_of_find?_eq_some hq
        exact (dimensionMatches_iff_spec q req _ (hreg q hqmem)).mp this
      · intro h d hd
        cases h with
        | inl h => exact absurd h hr
        | inr h =>
          cases hq : GetProcessor registry d with
          | none => rfl
          | some q =>
            have hqmem : q ∈ registry := List.mem_of_find?_eq_some hq
            exact (dimensionMatches_iff_spec q req _ (hreg q hqmem)).mpr (h d hd q hq)

/-- The three built-in processors decide normalized-value containment. -/
theorem builtin_normalized_membership :
    ∀ p ∈ NewDimensionRegistry, ∀ rv r, p.matchesRule rv r = true ↔
      p.normalizeValue rv ∈ r.values.map p.normalizeValue := by
  intro p hp
  unfold NewDimensionRegistry at hp
  simp only [List.mem_cons, List.mem_singleton, List.not_mem_nil, or_false] at hp
  rcases hp with rfl | rfl | rfl
  · exact fun rv r => matchesByNormalize_iff normLower rv r
  · exact fun rv r => matchesByNormalize_iff normLower rv r
  · exact fun rv r => matchesByNormalize_iff goTrimSpace rv r

/-- C1 (confirmed): for every campaign and delivery request, the matcher's
decision follows the algorithm exactly as the claim states it — an inactive
campaign never matches; no rules always match; otherwise rules are grouped
by dimension, groups without a registered processor are skipped, and each
remaining group passes iff, when the request value for the dimension is
empty, the group has no include-rules, and otherwise iff the include-set is
empty or some include-rule's normalized values contain the normalized
request value, and no exclude-rule's normalized values contain it; the
campaign matches iff every group passes. -/
theorem c1_matcher_follows_spec (c : CampaignWithRules) (req : DeliveryRequest) :
    MatchesRequest NewDimensionRegistry c req = true ↔
      specMatchesRequest NewDimensionRegistry c req :=
  MatchesRequest_iff_spec NewDimensionRegistry builtin_normalized_membership c req

/-- C9 (confirmed): normalization is idempotent for every registered
processor — the built-ins country, os and app and the example processors
device_type, age_group and time_of_day: for every string `v`,
`NormalizeValue (NormalizeValue v) = NormalizeValue v`. -/
theorem c9_normalize_idempotent :
    (∀ v, CountryProcessor.normalizeValue (CountryProcessor.normalizeValue v) =
      CountryProcessor.normalizeValue v) ∧
    (∀ v, OSProcessor.normalizeValue (OSProcessor.normalizeValue v) =
      OSProcessor.normalizeValue v) ∧
    (∀ v, AppProcessor.normalizeValue (AppProcessor.normalizeValue v) =
      AppProcessor.normalizeValue v) ∧
    (∀ v, DeviceTypeProcessor.normalizeValue (DeviceTypeProcessor.normalizeValue v) =
      DeviceTypeProcessor.normalizeValue v) ∧
    (∀ v, AgeGroupProcessor.normalizeValue (AgeGroupProcessor.normalizeValue v) =
      AgeGroupProcessor.normalizeValue v) ∧
    (∀ h v, (TimeOfDayProcessor h).normalizeValue ((TimeOfDayProcessor h).normalizeValue v) =
      (TimeOfDayProcessor h).normalizeValue v) :=
  ⟨fun v => normLower_idem v, fun v => normLower_idem v, fun v => goTrimSpace_idem v,
    fun v => normLower_idem v, fun v => normLower_idem v, fun _ v => goTrimSpace_idem v⟩

/-- C4 (confirmed): the delivery service validates before any repository
access — whenever country is empty or not exactly two characters, or os is
empty, or app is empty, the service returns a validation error and the
repository is never invoked; an empty country yields exactly
"country is required". -/
theorem c4_validation_before_repository (repoResult : Except Unit (List CampaignWithRules))
    (req : DeliveryRequest)
    (h : req.country = [] ∨ req.country.length ≠ 2 ∨ req.os = [] ∨ req.app = []) :
    (∃ e, deliveryServiceGetCampaigns repoResult req = (Except.error e, false)) ∧
      (req.country = [] →
        deliveryServiceGetCampaigns repoResult req =
          (Except.error "country is required".toList, false)) := by
  have hv : ∃ e, req.Validate = some e := by
    unfold DeliveryRequest.Validate
    by_cases h1 : req.country = []
    · exact ⟨_, by rw [if_pos h1]⟩
    · rw [if_neg h1]
      by_cases h2 : req.country.length ≠ 2
      · exact ⟨_, by rw [if_pos h2]⟩
      · rw [if_neg h2]
        by_cases h3 : req.os = []
        · exact ⟨_, by rw [if_pos h3]⟩
        · rw [if_neg h3]
          by_cases h4 : req.app = []
          · exact ⟨_, by rw [if_pos h4]⟩
          · exact absurd h (by tauto)
  obtain ⟨e, he⟩ := hv
  refine ⟨⟨e, ?_⟩, fun h1 => ?_⟩
  · unfold deliveryServiceGetCampaigns
    rw [he]
  · have he1 : req.Validate = some "country is required".toList := by
      unfold DeliveryRequest.Validate
      rw [if_pos h1]
    unfold deliveryServiceGetCampaigns
    rw [he1]

/-- C4 witness: the empty-country request of scenario 5. -/
theorem c4_witness :
    deliveryServiceGetCampaigns (Except.ok [])
        { app := "com.any".toList, country := [], os := "Android".toList } =
      (Except.error "country is required".toList, false) :=
  (c4_validation_before_repository (Except.ok [])
    { app := "com.any".toList, country := [], os := "Android".toList }
    (Or.inl rfl)).2 rfl

/-- The eviction sweep leaves at most `maxSize` entries. -/
theorem evictIfNeeded_size_le (now : Nat) (victims : List Str) (mc : MemoryCache) :
    (MemoryCache.evictIfNeeded now victims mc).items.length ≤ mc.maxSize := by
  simp only [MemoryCache.evictIfNeeded]
  split
  · rw [List.length_drop, (List.filter_append_perm _ _).length_eq]
    omega
  · omega

/-- The eviction sweep keeps only entries unexpired at its clock. -/
theorem evictIfNeeded_unexpired (now : Nat) (victims : List Str) (mc : MemoryCache) :
    (MemoryCache.evictIfNeeded now victims mc).items.all
      (fun e => !(e.2.isExpired now)) = true := by
  simp only [MemoryCache.evictIfNeeded]
  rw [List.all_eq_true]
  intro e he
  split at he
  · have hmem := (List.drop_sublist _ _).mem he
    have hfl := (List.filter_append_perm _ _).mem_iff.mp hmem
    exact (List.mem_filter.mp hfl).2
  · exact (List.mem_filter.mp he).2

/-- C8 (confirmed): for every starting state and every set operation of the
local tier, expired entries are swept and the entry count after the
operation never exceeds `maxSize` — so any sequence of sets keeps
`size() ≤ maxSize`. -/
theorem c8_capacity_invariant (now : Nat) (victims : List Str) (mc : MemoryCache) :
    (∀ campaigns ttl,
      MemoryCache.size (MemoryCache.setActiveCampaigns now campaigns ttl victims mc) ≤
          mc.maxSize ∧
        (MemoryCache.setActiveCampaigns now campaigns ttl victims mc).items.all
          (fun e => !(e.2.isExpired now)) = true) ∧
    (∀ key campaignIDs ttl,
      MemoryCache.size (MemoryCache.setCampaignIndex now key campaignIDs ttl victims mc) ≤
          mc.maxSize ∧
        (MemoryCache.setCampaignIndex now key campaignIDs ttl victims mc).items.all
          (fun e => !(e.2.isExpired now)) = true) := by
  refine ⟨fun campaigns ttl => ⟨?_, ?_⟩, fun key campaignIDs ttl => ⟨?_, ?_⟩⟩ <;>
    first
      | exact evictIfNeeded_size_le now victims _
      | exact evictIfNeeded_unexpired now victims _

/-- Read-your-writes core: after a `setItem` that does not trigger the
over-capacity drop (the unexpired entries after the insert fit in
`maxSize`), the freshly written entry is returned by `getItem` at any time
strictly before its expiry, for every sweep order. -/
theorem getItem_setItem (now t : Nat) (key : Str) (data : Payload) (ttl : Nat)
    (victims : List Str) (mc : MemoryCache)
    (hcap : ((mc.items.filter (fun e => e.1 ≠ key) ++
        [((key : Str), (⟨data, now + ttl⟩ : CacheItem))]).filter
          (fun e => !(e.2.isExpired now))).length ≤ mc.maxSize)
    (ht : t < now + ttl) :
    MemoryCache.getItem t key (MemoryCache.setItem now key data ttl victims mc) =
      some data := by
  have hfind : ∀ X : List (Str × CacheItem), (∀ e ∈ X, e.1 ≠ key) →
      List.find? (fun e => e.1 = key) (X ++ [(key, ⟨data, now + ttl⟩)]) =
        some (key, ⟨data, now + ttl⟩) := by
    intro X hX
    rw [List.find?_append]
    have h1 : List.find? (fun e => decide (e.1 = key)) X = none :=
      List.find?_eq_none.mpr (fun x hx => by simpa using hX x hx)
    rw [h1]
    simp [List.find?]
  unfold MemoryCache.setItem
  set base := mc.items.filter (fun e => e.1 ≠ key) with hbase
  have hbase_ne : ∀ e ∈ base, e.1 ≠ key := by
    intro e he
    have h2 := (List.mem_filter.mp he).2
    simpa using h2
  have hfilter :
      (base ++ [((key : Str), (⟨data, now + ttl⟩ : CacheItem))]).filter
          (fun e => !(e.2.isExpired now)) =
        base.filter (fun e => !(e.2.isExpired now)) ++
          [((key : Str), (⟨data, now + ttl⟩ : CacheItem))] := by
    rw [List.filter_append]
    congr 1
    simp [CacheItem.isExpired]
  set fb := base.filter (fun e => !(e.2.isExpired now)) with hfb
  have hfb_ne : ∀ e ∈ fb, e.1 ≠ key := fun e he => hbase_ne e (List.mem_filter.mp he).1
  have hexp : CacheItem.isExpired t ⟨data, now + ttl⟩ = false := by
    simp only [CacheItem.isExpired, decide_eq_false_iff_not]
    omega
  have hcap2 : ¬((fb ++ [((key : Str), (⟨data, now + ttl⟩ : CacheItem))]).length >
      mc.maxSize) := by
    rw [← hfilter]
    omega
  simp only [MemoryCache.evictIfNeeded, hfilter]
  rw [if_neg hcap2]
  unfold MemoryCache.getItem
  rw [hfind _ hfb_ne]
  simp [hexp]

/-- C5 (corrected): read-your-writes holds for both typed set/get pairs of
the local tier whenever the set does not trigger the over-capacity drop —
the unexpired entries after the insert fit within `maxSize` — for every
admissible sweep order.  When the insert leaves the tier over capacity, the
sweep deletes entries in unspecified map-iteration order and can delete the
key that was just written (see the counterexample), so no unconditional
read-your-writes holds. -/
theorem c5_read_your_writes (mc : MemoryCache) (now t ttl : Nat) (victims : List Str)
    (httl : 0 < ttl) (ht : t < now + ttl) :
    (∀ campaigns,
      ((mc.items.filter (fun e => e.1 ≠ activeCampaignsKey) ++
          [(activeCampaignsKey, (⟨Payload.campaigns campaigns, now + ttl⟩ : CacheItem))]).filter
            (fun e => !(e.2.isExpired now))).length ≤ mc.maxSize →
      MemoryCache.getActiveCampaigns t
          (MemoryCache.setActiveCampaigns now campaigns ttl victims mc) =
        (campaigns, true)) ∧
    (∀ key campaignIDs,
      ((mc.items.filter (fun e => e.1 ≠ key) ++
          [((key : Str), (⟨Payload.ids campaignIDs, now + ttl⟩ : CacheItem))]).filter
            (fun e => !(e.2.isExpired now))).length ≤ mc.maxSize →
      MemoryCache.getCampaignIndex t key
          (MemoryCache.setCampaignIndex now key campaignIDs ttl victims mc) =
        (campaignIDs, true)) := by
  constructor
  · intro campaigns hcap
    unfold MemoryCache.getActiveCampaigns MemoryCache.setActiveCampaigns
    rw [getItem_setItem now t _ _ ttl victims mc hcap ht]
  · intro key campaignIDs hcap
    unfold MemoryCache.getCampaignIndex MemoryCache.setCampaignIndex
    rw [getItem_setItem now t _ _ ttl victims mc hcap ht]

/-- C5 counterexample: `maxSize = 1`, one pre-existing unexpired entry, and
a fresh set with `ttl = 5 > 0` whose over-capacity sweep visits the freshly
written key first (an admissible Go map-iteration order): the get
immediately after the set (time 0, well before expiry) misses, because the
sweep deleted the entry that was just written. -/
theorem c5_counterexample :
    (0 : Nat) < 5 ∧ (0 : Nat) < 0 + 5 ∧ (1 : Nat) ≤ 1 ∧
      MemoryCache.getCampaignIndex 0 "k".toList
          (MemoryCache.setCampaignIndex 0 "k".toList ["a".toList] 5 ["k".toList]
            ⟨[("j".toList, ⟨Payload.ids [], 9⟩)], 1⟩) =
        ([], false) := by decide

/-- C5 witness: a concrete read-your-writes instance within capacity. -/
theorem c5_witness :
    MemoryCache.getCampaignIndex 3 "k".toList
        (MemoryCache.setCampaignIndex 0 "k".toList ["a".toList] 5 ["k".toList]
          ⟨[], 10⟩) =
      (["a".toList], true) :=
  (c5_read_your_writes ⟨[], 10⟩ 0 3 5 ["k".toList] (by decide) (by decide)).2
    "k".toList ["a".toList] (by decide)

/-- C6 (corrected): write fan-out with both tiers enabled — the local tier
is updated unconditionally (for every sweep order), and a failed
shared-tier write increments the error counter; the operation then RETURNS
an error to its caller (which treats it as non-fatal), rather than
reporting success; with a healthy shared tier it reports success and leaves
the counters unchanged. -/
theorem c6_write_fanout (now ttl : Nat) (campaigns : List CampaignWithRules)
    (dimension value : Str) (campaignIDs : List Str) (victims : List Str)
    (mc : MemoryCache) (stats : CacheStats) (redisWrite : Option Bool) :
    ((HybridCache.SetActiveCampaigns now campaigns ttl victims redisWrite
          ⟨some mc, stats⟩).1.memory =
        some (MemoryCache.setActiveCampaigns now campaigns ttl victims mc) ∧
      (redisWrite = some false →
        (HybridCache.SetActiveCampaigns now campaigns ttl victims redisWrite
              ⟨some mc, stats⟩).1.stats = recordError stats ∧
          (HybridCache.SetActiveCampaigns now campaigns ttl victims redisWrite
              ⟨some mc, stats⟩).2 = true) ∧
      (redisWrite ≠ some false →
        (HybridCache.SetActiveCampaigns now campaigns ttl victims redisWrite
              ⟨some mc, stats⟩).1.stats = stats ∧
          (HybridCache.SetActiveCampaigns now campaigns ttl victims redisWrite
              ⟨some mc, stats⟩).2 = false)) ∧
    ((HybridCache.SetCampaignIndex now dimension value campaignIDs ttl victims redisWrite
          ⟨some mc, stats⟩).1.memory =
        some (MemoryCache.setCampaignIndex now (indexKey dimension value) campaignIDs ttl
          victims mc) ∧
      (redisWrite = some false →
        (HybridCache.SetCampaignIndex now dimension value campaignIDs ttl victims redisWrite
              ⟨some mc, stats⟩).1.stats = recordError stats ∧
          (HybridCache.SetCampaignIndex now dimension value campaignIDs ttl victims redisWrite
              ⟨some mc, stats⟩).2 = true) ∧
      (redisWrite ≠ some false →
        (HybridCache.SetCampaignIndex now dimension value campaignIDs ttl victims redisWrite
              ⟨some mc, stats⟩).1.stats = stats ∧
          (HybridCache.SetCampaignIndex now dimension value campaignIDs ttl victims redisWrite
              ⟨some mc, stats⟩).2 = false)) := by
  rcases redisWrite with _ | b
  · simp [HybridCache.SetActiveCampaigns, HybridCache.SetCampaignIndex]
  · cases b <;>
      simp [HybridCache.SetActiveCampaigns, HybridCache.SetCampaignIndex]

/-- C6 counterexample: both tiers enabled, the local write succeeded, the
shared-tier write failed — yet the operation reports an error to its caller
(second component `true`), refuting "the operation as a whole still
succeeds"; the local tier was nevertheless updated. -/
theorem c6_counterexample :
    (HybridCache.SetActiveCampaigns 0 [] 5 [] (some false)
        ⟨some ⟨[], 10⟩, ⟨0, 0, 0, 0, 0, 0⟩⟩).2 = true ∧
      (HybridCache.SetActiveCampaigns 0 [] 5 [] (some false)
          ⟨some ⟨[], 10⟩, ⟨0, 0, 0, 0, 0, 0⟩⟩).1.memory =
        some (MemoryCache.setActiveCampaigns 0 [] 5 [] ⟨[], 10⟩) := by decide

/-- C6 witness: the failed shared write increments the error counter. -/
theorem c6_witness :
    (HybridCache.SetActiveCampaigns 0 [] 5 [] (some false)
        ⟨some ⟨[], 10⟩, ⟨0, 0, 0, 0, 0, 0⟩⟩).1.stats = recordError ⟨0, 0, 0, 0, 0, 0⟩ :=
  ((c6_write_fanout 0 5 [] [] [] [] [] ⟨[], 10⟩ ⟨0, 0, 0, 0, 0, 0⟩
      (some false)).1.2.1 rfl).1

/-- Every entry present after a `setItem` was either already present or is
the freshly written entry, for every sweep order. -/
theorem mem_setItem (now : Nat) (key : Str) (data : Payload) (ttl : Nat)
    (victims : List Str) (mc : MemoryCache) (e : Str × CacheItem)
    (he : e ∈ (MemoryCache.setItem now key data ttl victims mc).items) :
    e ∈ mc.items ∨ e = (key, ⟨data, now + ttl⟩) := by
  unfold MemoryCache.setItem at he
  simp only [MemoryCache.evictIfNeeded] at he
  have he2 : e ∈ mc.items.filter (fun x => x.1 ≠ key) ++
      [((key : Str), (⟨data, now + ttl⟩ : CacheItem))] := by
    split at he
    · have hmem := (List.drop_sublist _ _).mem he
      have hfl := (List.filter_append_perm _ _).mem_iff.mp hmem
      exact List.mem_of_mem_filter hfl
    · exact List.mem_of_mem_filter he
  rcases List.mem_append.mp he2 with h | h
  · exact Or.inl (List.mem_of_mem_filter h)
  · right
    simpa using h

/-- Unfolding of the posting-list writing fold. -/
theorem writeIndexLists_cons (now indexTTL : Nat) (dimension : Str)
    (x : Str × List Str) (xs : Index) (victims : List Str) (mc : MemoryCache) :
    writeIndexLists now indexTTL dimension (x :: xs) victims mc =
      writeIndexLists now indexTTL dimension xs victims
        (MemoryCache.setCampaignIndex now (indexKey dimension x.1) x.2 indexTTL victims
          mc) := rfl

/-- Entries surviving a posting-list writing pass are either pre-existing or
index entries written with the pass's ttl. -/
theorem mem_writeIndexLists (now indexTTL : Nat) (dimension : Str) (idx : Index)
    (victims : List Str) (mc : MemoryCache) (e : Str × CacheItem)
    (he : e ∈ (writeIndexLists now indexTTL dimension idx victims mc).items) :
    e ∈ mc.items ∨ ((∃ v, e.1 = indexKey dimension v) ∧ e.2.expiresAt = now + indexTTL) := by
  induction idx generalizing mc with
  | nil => exact Or.inl he
  | cons x xs ih =>
    rw [writeIndexLists_cons] at he
    rcases ih _ he with h | h
    · rcases mem_setItem now (indexKey dimension x.1) (Payload.ids x.2) indexTTL victims
          mc e h with h2 | h2
      · exact Or.inl h2
      · right
        subst h2
        exact ⟨⟨x.1, rfl⟩, rfl⟩
    · exact Or.inr h

/-- Posting-list keys are disjoint from the snapshot key. -/
theorem indexKey_ne_active (d v : Str) : indexKey d v ≠ activeCampaignsKey := by
  intro h
  have h1 : (indexKey d v).head? = (activeCampaignsKey : Str).head? := by rw [h]
  have h2 : (indexKey d v).head? = some 'i' := rfl
  rw [h2] at h1
  revert h1
  decide

/-- After materialization into an empty local tier, every entry is either
the snapshot entry (expiring at `now + ttl`) or a posting-list entry
(expiring at `now + ttl + time.Minute`), for every sweep order. -/
theorem mem_materializeLocal (now ttl : Nat) (campaigns : List CampaignWithRules)
    (victims : List Str) (maxSize : Nat) (e : Str × CacheItem)
    (he : e ∈ (materializeLocal now ttl campaigns victims ⟨[], maxSize⟩).items) :
    e = (activeCampaignsKey, ⟨Payload.campaigns campaigns, now + ttl⟩) ∨
      ((∃ d v, e.1 = indexKey d v) ∧ e.2.expiresAt = now + (ttl + timeMinute)) := by
  simp only [materializeLocal] at he
  rcases mem_writeIndexLists _ _ _ _ _ _ _ he with h | h
  · rcases mem_writeIndexLists _ _ _ _ _ _ _ h with h | h
    · rcases mem_writeIndexLists _ _ _ _ _ _ _ h with h | h
      · rcases mem_setItem _ _ _ _ _ _ _ h with h2 | h2
        · simp at h2
        · exact Or.inl h2
      · obtain ⟨⟨v, hv⟩, hexp⟩ := h
        exact Or.inr ⟨⟨_, v, hv⟩, hexp⟩
    · obtain ⟨⟨v, hv⟩, hexp⟩ := h
      exact Or.inr ⟨⟨_, v, hv⟩, hexp⟩
  · obtain ⟨⟨v, hv⟩, hexp⟩ := h
    exact Or.inr ⟨⟨_, v, hv⟩, hexp⟩

/-- C7 (confirmed): for every snapshot/ttl materialized together (and every
sweep order), the snapshot entry expires at `now + ttl` and every
posting-list entry at `now + ttl + time.Minute`, so each index entry's
expiry is strictly greater than the snapshot's for every configured
snapshot ttl. -/
theorem c7_ttl_ordering (campaigns : List CampaignWithRules)
    (ttl now maxSize : Nat) (victims : List Str)
    (snapEntry idxEntry : Str × CacheItem)
    (hs : snapEntry ∈ (materializeLocal now ttl campaigns victims ⟨[], maxSize⟩).items)
    (hsk : snapEntry.1 = activeCampaignsKey)
    (hi : idxEntry ∈ (materializeLocal now ttl campaigns victims ⟨[], maxSize⟩).items)
    (hik : idxEntry.1 ≠ activeCampaignsKey) :
    snapEntry.2.expiresAt = now + ttl ∧
      idxEntry.2.expiresAt = now + (ttl + timeMinute) ∧
      snapEntry.2.expiresAt < idxEntry.2.expiresAt := by
  have h1 : snapEntry.2.expiresAt = now + ttl := by
    rcases mem_materializeLocal _ _ _ _ _ _ hs with h | h
    · rw [h]
    · obtain ⟨⟨d, v, hv⟩, _⟩ := h
      exact absurd (hv ▸ hsk) (indexKey_ne_active d v)
  have h2 : idxEntry.2.expiresAt = now + (ttl + timeMinute) := by
    rcases mem_materializeLocal _ _ _ _ _ _ hi with h | h
    · exact absurd (by rw [h]) hik
    · exact h.2
  refine ⟨h1, h2, ?_⟩
  rw [h1, h2]
  have hm : timeMinute = 60000000000 := rfl
  omega

/-- C7 witness: the scenario-4 snapshot materialized at time 0 with ttl 10. -/
theorem c7_witness :
    (activeCampaignsKey,
        (⟨Payload.campaigns scenario4Snapshot, 10⟩ : CacheItem)).2.expiresAt = 0 + 10 ∧
      (indexKey "os".toList "android".toList,
          (⟨Payload.ids ["subwaysurfer".toList], 10 + timeMinute⟩ : CacheItem)).2.expiresAt =
        0 + (10 + timeMinute) ∧
      (activeCampaignsKey,
          (⟨Payload.campaigns scenario4Snapshot, 10⟩ : CacheItem)).2.expiresAt <
        (indexKey "os".toList "android".toList,
          (⟨Payload.ids ["subwaysurfer".toList], 10 + timeMinute⟩ : CacheItem)).2.expiresAt :=
  c7_ttl_ordering scenario4Snapshot 10 0 10 [] _ _ (by decide) rfl (by decide) (by decide)

/-- C10 (confirmed): `hits + misses = totalOps` is preserved — each recorded
hit or miss increments its counter together with `totalOps`, every get
operation's counter effect is exactly a recorded hit or a recorded miss
(for every tier configuration and shared-tier outcome), a recorded error
touches only the error counter, and `GetStats` computes the hit ratio only
when `totalOps > 0`, returning the stored stats unchanged otherwise. -/
theorem c10_counter_coherence :
    (∀ s : CacheStats, s.hits + s.misses = s.totalOps →
      ((recordHit s).hits + (recordHit s).misses = (recordHit s).totalOps ∧
          (recordHit s).totalOps = s.totalOps + 1) ∧
        ((recordMiss s).hits + (recordMiss s).misses = (recordMiss s).totalOps ∧
          (recordMiss s).totalOps = s.totalOps + 1) ∧
        ((recordError s).hits + (recordError s).misses = (recordError s).totalOps ∧
          (recordError s).totalOps = s.totalOps ∧
          (recordError s).errors = s.errors + 1)) ∧
    (∀ now defaultTTL victims redisGet hc,
      (HybridCache.GetActiveCampaigns now defaultTTL victims redisGet hc).1.stats =
          recordHit hc.stats ∨
        (HybridCache.GetActiveCampaigns now defaultTTL victims redisGet hc).1.stats =
          recordMiss hc.stats) ∧
    (∀ now defaultTTL dimension value victims redisGet hc,
      (HybridCache.GetCampaignIndex now defaultTTL dimension value victims
            redisGet hc).1.stats =
          recordHit hc.stats ∨
        (HybridCache.GetCampaignIndex now defaultTTL dimension value victims
            redisGet hc).1.stats =
          recordMiss hc.stats) ∧
    (∀ hc : HybridState,
      (hc.stats.totalOps = 0 → HybridCache.GetStats hc = hc.stats) ∧
      (0 < hc.stats.totalOps →
        (HybridCache.GetStats hc).hitRatio = (hc.stats.hits : ℚ) / (hc.stats.totalOps : ℚ))) := by
  refine ⟨?_, ?_, ?_, ?_⟩
  · intro s h
    refine ⟨⟨?_, rfl⟩, ⟨?_, rfl⟩, ⟨?_, rfl, rfl⟩⟩
    · show s.hits + 1 + s.misses = s.totalOps + 1
      omega
    · show s.hits + (s.misses + 1) = s.totalOps + 1
      omega
    · show s.hits + s.misses = s.totalOps
      exact h
  · intro now defaultTTL victims redisGet hc
    obtain ⟨mem, stats⟩ := hc
    cases mem with
    | none =>
      rcases redisGet with _ | r
      · right; rfl
      · rcases r with _ | cs
        · right; rfl
        · left; rfl
    | some mc =>
      by_cases h : (MemoryCache.getActiveCampaigns now mc).2
      · left
        simp [HybridCache.GetActiveCampaigns, h]
      · rcases redisGet with _ | r
        · right
          simp [HybridCache.GetActiveCampaigns, h]
        · rcases r with _ | cs
          · right
            simp [HybridCache.GetActiveCampaigns, h]
          · left
            simp [HybridCache.GetActiveCampaigns, h]
  · intro now defaultTTL dimension value victims redisGet hc
    obtain ⟨mem, stats⟩ := hc
    cases mem with
    | none =>
      rcases redisGet with _ | r
      · right; rfl
      · rcases r with _ | cs
        · right; rfl
        · left; rfl
    | some mc =>
      by_cases h : (MemoryCache.getCampaignIndex now (indexKey dimension value) mc).2
      · left
        simp [HybridCache.GetCampaignIndex, h]
      · rcases redisGet with _ | r
        · right
          simp [HybridCache.GetCampaignIndex, h]
        · rcases r with _ | cs
          · right
            simp [HybridCache.GetCampaignIndex, h]
          · left
            simp [HybridCache.GetCampaignIndex, h]
  · intro hc
    constructor
    · intro h0
      unfold HybridCache.GetStats
      rw [if_neg]
      omega
    · intro hpos
      unfold HybridCache.GetStats
      rw [if_pos hpos]

/-- C10 witness: the invariant is preserved by a hit from the zero stats. -/
theorem c10_witness :
    (recordHit ⟨0, 0, 0, 0, 0, 0⟩).hits + (recordHit ⟨0, 0, 0, 0, 0, 0⟩).misses =
      (recordHit ⟨0, 0, 0, 0, 0, 0⟩).totalOps :=
  ((c10_counter_coherence.1 ⟨0, 0, 0, 0, 0, 0⟩ (by decide)).1).1

/-- The id-map fold only ever produces elements of the snapshot (or its
accumulator). -/
theorem foldl_lastWithID_mem (campaigns : List CampaignWithRules) (id : Str)
    (acc : Option CampaignWithRules) (c : CampaignWithRules)
    (h : campaigns.foldl (fun acc c => if c.campaign.id = id then some c else acc) acc =
      some c) :
    c ∈ campaigns ∨ acc = some c := by
  induction campaigns generalizing acc with
  | nil => exact Or.inr h
  | cons x xs ih =>
    rw [List.foldl_cons] at h
    rcases ih _ h with hmem | hacc
    · exact Or.inl (List.mem_cons_of_mem _ hmem)
    · by_cases hx : x.campaign.id = id
      · rw [if_pos hx] at hacc
        left
        rw [Option.some.injEq] at hacc
        rw [← hacc]
        exact List.mem_cons_self _ _
      · rw [if_neg hx] at hacc
        exact Or.inr hacc

/-- `lastWithID` returns an element of the snapshot. -/
theorem lastWithID_mem (campaigns : List CampaignWithRules) (id : Str)
    (c : CampaignWithRules) (h : lastWithID campaigns id = some c) : c ∈ campaigns := by
  rcases foldl_lastWithID_mem campaigns id none c h with h2 | h2
  · exact h2
  · cases h2

/-- Every campaign the fast path returns comes from the snapshot. -/
theorem getCampaignsByRequest_subset (snapshot : List CampaignWithRules)
    (req : DeliveryRequest) (c : CampaignWithRules)
    (h : c ∈ GetCampaignsByRequest snapshot req) : c ∈ snapshot := by
  unfold GetCampaignsByRequest at h
  cases hcand : getCandidateIDs (warmCache snapshot) req with
  | none =>
    rw [hcand] at h
    exact h
  | some ids =>
    rw [hcand] at h
    by_cases hne : ids ≠ []
    · have h2 : c ∈ getCampaignsByIDs snapshot ids := by simpa [hne] using h
      unfold getCampaignsByIDs at h2
      rw [List.mem_filterMap] at h2
      obtain ⟨id, _, hfind⟩ := h2
      exact lastWithID_mem _ _ _ hfind
    · have h2 : c ∈ ([] : List CampaignWithRules) := by simpa [hne] using h
      cases h2

/-- C2 (corrected): the fast path is sound — every campaign it matches is
matched by the full-snapshot path — and on the scenario-4 snapshot and
request the candidate set contains subwaysurfer and the two paths return
the same response.  Full equivalence fails in general (see the
counterexample): the union of posting lists omits active campaigns with no
include-rule on any indexed dimension, which the full path matches. -/
theorem c2_fast_path_sound_and_scenario4 :
    (∀ snapshot req c,
        c ∈ matchFilter (GetCampaignsByRequest snapshot req) req →
          c ∈ matchFilter snapshot req) ∧
      ("subwaysurfer".toList ∈
          (getCandidateIDs (warmCache scenario4Snapshot) scenario4Request).getD [] ∧
        matchFilter (GetCampaignsByRequest scenario4Snapshot scenario4Request)
            scenario4Request =
          matchFilter scenario4Snapshot scenario4Request) := by
  refine ⟨?_, by decide, by decide⟩
  intro snapshot req c hc
  unfold matchFilter at hc ⊢
  rw [List.mem_filter] at hc ⊢
  exact ⟨getCampaignsByRequest_subset _ _ _ hc.1, hc.2⟩

/-- C2 witness: soundness applied on the scenario-4 instance. -/
theorem c2_witness : subwaysurfer ∈ matchFilter scenario4Snapshot scenario4Request :=
  c2_fast_path_sound_and_scenario4.1 scenario4Snapshot scenario4Request subwaysurfer
    (by decide)

/-- C2 counterexample: on a snapshot where every index lookup of the
request succeeds with a non-empty posting list, the rule-less active
campaign `freebie` is matched by the full-snapshot path but absent from the
fast path's answer, refuting the claimed equivalence. -/
theorem c2_counterexample :
    (GetCampaignIndex (warmCache c2Snapshot) "country".toList
        scenario4Request.country).getD [] ≠ [] ∧
      (GetCampaignIndex (warmCache c2Snapshot) "os".toList
          scenario4Request.os).getD [] ≠ [] ∧
      (GetCampaignIndex (warmCache c2Snapshot) "app".toList
          scenario4Request.app).getD [] ≠ [] ∧
      freebie ∈ matchFilter c2Snapshot scenario4Request ∧
      freebie ∉
        matchFilter (GetCampaignsByRequest c2Snapshot scenario4Request) scenario4Request := by
  decide

/-- Unfolding a posting-list lookup over a cons cell. -/
theorem idxLookup_cons (e : Str × List Str) (idx : Index) (v : Str) :
    idxLookup (e :: idx) v = if e.1 = v then some e.2 else idxLookup idx v := by
  unfold idxLookup
  by_cases h : e.1 = v
  · rw [List.find?_cons_of_pos _ (by simpa using h), if_pos h]
    rfl
  · rw [List.find?_cons_of_neg _ (by simpa using h), if_neg h]

/-- Lookup in the empty index misses. -/
theorem idxLookup_nil (v : Str) : idxLookup [] v = none := rfl

/-- A value with no entry yields a miss. -/
theorem lookup_none_of_not_any (idx : Index) (v : Str)
    (h : idx.any (fun e => e.1 = v) = false) : idxLookup idx v = none := by
  unfold idxLookup
  rw [List.find?_eq_none.mpr]
  · rfl
  · intro x hx
    have := List.any_eq_false.mp h x hx
    simpa using this

/-- A value with an entry yields a posting list. -/
theorem lookup_isSome_of_any (idx : Index) (v : Str)
    (h : idx.any (fun e => e.1 = v) = true) : ∃ ids, idxLookup idx v = some ids := by
  obtain ⟨e, he, hp⟩ := List.any_eq_true.mp h
  unfold idxLookup
  cases hf : List.find? (fun e => decide (e.1 = v)) idx with
  | none => exact absurd hp (List.find?_eq_none.mp hf e he)
  | some x => exact ⟨x.2, rfl⟩

/-- Effect of the in-place extension pass of `idxAppend` on lookups. -/
theorem idxLookup_mapAdd (idx : Index) (v campaignID v2 : Str) :
    idxLookup (idx.map (fun e => if e.1 = v then (e.1, e.2 ++ [campaignID]) else e)) v2 =
      if v2 = v then (idxLookup idx v2).map (fun ids => ids ++ [campaignID])
      else idxLookup idx v2 := by
  induction idx with
  | nil => by_cases h : v2 = v <;> simp [idxLookup, h]
  | cons e rest ih =>
    have hfst : (if e.1 = v then (e.1, e.2 ++ [campaignID]) else e).1 = e.1 := by
      split <;> rfl
    by_cases hev2 : e.1 = v2
    · by_cases hev : e.1 = v
      · have hv : v2 = v := by rw [← hev2, hev]
        rw [List.map_cons, if_pos hev, idxLookup_cons, idxLookup_cons, if_pos hev2,
          if_pos hev2, if_pos hv]
        rfl
      · have hv : ¬(v2 = v) := fun hc => hev (hev2.trans hc)
        rw [List.map_cons, if_neg hev, idxLookup_cons, idxLookup_cons, if_pos hev2,
          if_pos hev2, if_neg hv]
    · rw [List.map_cons, idxLookup_cons, hfst, if_neg hev2, ih, idxLookup_cons,
        if_neg hev2]

/-- Effect of appending a fresh singleton entry on lookups. -/
theorem idxLookup_append_single (idx : Index) (v campaignID v2 : Str) :
    idxLookup (idx ++ [(v, [campaignID])]) v2 =
      match idxLookup idx v2 with
      | some ids => some ids
      | none => if v = v2 then some [campaignID] else none := by
  induction idx with
  | nil =>
    by_cases h : v = v2
    · simp [idxLookup, List.find?, h]
    · simp [idxLookup, List.find?, h]
  | cons e rest ih =>
    rw [List.cons_append, idxLookup_cons, idxLookup_cons]
    by_cases he : e.1 = v2
    · rw [if_pos he, if_pos he]
    · rw [if_neg he, if_neg he, ih]

/-- `idxAppend` extends exactly the posting list at its value and leaves
every other lookup unchanged. -/
theorem idxLookup_idxAppend (idx : Index) (v campaignID v2 : Str) :
    idxLookup (idxAppend idx v campaignID) v2 =
      if v2 = v then some (((idxLookup idx v).getD []) ++ [campaignID])
      else idxLookup idx v2 := by
  unfold idxAppend
  by_cases hany : idx.any (fun e => e.1 = v)
  · rw [if_pos hany, idxLookup_mapAdd]
    by_cases hv : v2 = v
    · rw [if_pos hv, if_pos hv, hv]
      obtain ⟨ids, hids⟩ := lookup_isSome_of_any idx v hany
      rw [hids]
      rfl
    · rw [if_neg hv, if_neg hv]
  · rw [if_neg hany, idxLookup_append_single]
    have hnone : idxLookup idx v = none := lookup_none_of_not_any idx v
      (Bool.eq_false_iff.mpr hany)
    by_cases hv : v2 = v
    · rw [hv, hnone]
      simp
    · cases hL : idxLookup idx v2 with
      | none => simp [Ne.symm hv, hv]
      | some ids => simp [hv]

/-- No identifier is a member of the empty index. -/
theorem IdxMem_nil (v campaignID : Str) : ¬ IdxMem [] v campaignID := by
  rintro ⟨ids, h, _⟩
  cases h

/-- Posting-list membership after a single append. -/
theorem IdxMem_idxAppend (idx : Index) (v campaignID v2 campaignID2 : Str) :
    IdxMem (idxAppend idx v campaignID) v2 campaignID2 ↔
      IdxMem idx v2 campaignID2 ∨ (v2 = v ∧ campaignID2 = campaignID) := by
  unfold IdxMem
  rw [idxLookup_idxAppend]
  by_cases hv : v2 = v
  · rw [if_pos hv]
    subst hv
    cases hL : idxLookup idx v2 with
    | none => simp
    | some ids => simp [List.mem_append]
  · rw [if_neg hv]
    simp [hv]

/-- Posting-list membership after appending one campaign id under every
value of a list. -/
theorem IdxMem_foldl_idxAppend (values : List Str) (campaignID : Str) (idx : Index)
    (v2 campaignID2 : Str) :
    IdxMem (values.foldl (fun i v => idxAppend i v campaignID) idx) v2 campaignID2 ↔
      IdxMem idx v2 campaignID2 ∨ (v2 ∈ values ∧ campaignID2 = campaignID) := by
  induction values generalizing idx with
  | nil => simp
  | cons v vs ih =>
    rw [List.foldl_cons, ih, IdxMem_idxAppend]
    constructor
    · rintro ((h | ⟨rfl, rfl⟩) | ⟨hv, rfl⟩)
      · exact Or.inl h
      · exact Or.inr ⟨List.mem_cons_self _ _, rfl⟩
      · exact Or.inr ⟨List.mem_cons_of_mem _ hv, rfl⟩
    · rintro (h | ⟨hv, rfl⟩)
      · exact Or.inl (Or.inl h)
      · rcases List.mem_cons.mp hv with rfl | hv2
        · exact Or.inl (Or.inr ⟨rfl, rfl⟩)
        · exact Or.inr ⟨hv2, rfl⟩

/-- On a country rule, `NormalizeValues` is lowercase-and-trim. -/
theorem NormalizeValues_country (r : TargetingRule) (h : r.dimension = "country".toList) :
    r.NormalizeValues = r.values.map normLower := by
  unfold TargetingRule.NormalizeValues
  rw [h]
  have hp : GetProcessor NewDimensionRegistry "country".toList = some CountryProcessor := rfl
  rw [hp]
  rfl

/-- On an os rule, `NormalizeValues` is lowercase-and-trim. -/
theorem NormalizeValues_os (r : TargetingRule) (h : r.dimension = "os".toList) :
    r.NormalizeValues = r.values.map normLower := by
  unfold TargetingRule.NormalizeValues
  rw [h]
  have hp : GetProcessor NewDimensionRegistry "os".toList = some OSProcessor := rfl
  rw [hp]
  rfl

/-- The three indexed dimension names are pairwise distinct. -/
theorem country_ne_os : ("country".toList : Str) ≠ "os".toList := by decide

/-- See `country_ne_os`. -/
theorem country_ne_app : ("country".toList : Str) ≠ "app".toList := by decide

/-- See `country_ne_os`. -/
theorem os_ne_app : ("os".toList : Str) ≠ "app".toList := by decide

/-- Absorb an impossible disjunct. -/
theorem iff_self_or_of_not {A B : Prop} (hB : ¬B) : A ↔ A ∨ B :=
  ⟨Or.inl, fun h => h.elim id (fun hb => absurd hb hB)⟩

/-- Regroup a disjunction with an existential over a cons cell. -/
theorem or_exists_cons {α : Type} (A : Prop) (P : α → Prop) (x : α) (xs : List α) :
    ((A ∨ P x) ∨ ∃ y ∈ xs, P y) ↔ (A ∨ ∃ y ∈ x :: xs, P y) := by
  constructor
  · rintro ((h | hx) | ⟨y, hy, hp⟩)
    · exact Or.inl h
    · exact Or.inr ⟨x, List.mem_cons_self _ _, hx⟩
    · exact Or.inr ⟨y, List.mem_cons_of_mem _ hy, hp⟩
  · rintro (h | ⟨y, hy, hp⟩)
    · exact Or.inl (Or.inl h)
    · rcases List.mem_cons.mp hy with rfl | hy2
      · exact Or.inl (Or.inr hp)
      · exact Or.inr ⟨y, hy2, hp⟩

/-- Contribution of a single rule to the three indexes: only include-rules
contribute, each to the index of its own dimension, country/os under
normalized values and app under raw values. -/
theorem IdxMem_indexRule (campaignID : Str) (st : IndexState) (r : TargetingRule)
    (v2 campaignID2 : Str) :
    (IdxMem (indexRule campaignID st r).countryIndex v2 campaignID2 ↔
      IdxMem st.countryIndex v2 campaignID2 ∨
        (r.ruleType = RuleType.ruleTypeInclude ∧ r.dimension = "country".toList ∧
          v2 ∈ r.values.map normLower ∧ campaignID2 = campaignID)) ∧
    (IdxMem (indexRule campaignID st r).osIndex v2 campaignID2 ↔
      IdxMem st.osIndex v2 campaignID2 ∨
        (r.ruleType = RuleType.ruleTypeInclude ∧ r.dimension = "os".toList ∧
          v2 ∈ r.values.map normLower ∧ campaignID2 = campaignID)) ∧
    (IdxMem (indexRule campaignID st r).appIndex v2 campaignID2 ↔
      IdxMem st.appIndex v2 campaignID2 ∨
        (r.ruleType = RuleType.ruleTypeInclude ∧ r.dimension = "app".toList ∧
          v2 ∈ r.values ∧ campaignID2 = campaignID)) := by
  unfold indexRule
  by_cases hinc : r.ruleType = RuleType.ruleTypeInclude
  · rw [if_neg (by simpa using hinc)]
    by_cases hc : r.dimension = "country".toList
    · rw [if_pos hc]
      refine ⟨?_, ?_, ?_⟩
      · simp [IdxMem_foldl_idxAppend, NormalizeValues_country r hc, hinc, hc]
      · exact iff_self_or_of_not
          (fun hB => country_ne_os (by rw [← hc]; exact hB.2.1))
      · exact iff_self_or_of_not
          (fun hB => country_ne_app (by rw [← hc]; exact hB.2.1))
    · rw [if_neg hc]
      by_cases ho : r.dimension = "os".toList
      · rw [if_pos ho]
        refine ⟨?_, ?_, ?_⟩
        · exact iff_self_or_of_not (fun hB => hc hB.2.1)
        · simp [IdxMem_foldl_idxAppend, NormalizeValues_os r ho, hinc, ho]
        · exact iff_self_or_of_not
            (fun hB => os_ne_app (by rw [← ho]; exact hB.2.1))
      · rw [if_neg ho]
        by_cases hap : r.dimension = "app".toList
        · rw [if_pos hap]
          refine ⟨?_, ?_, ?_⟩
          · exact iff_self_or_of_not (fun hB => hc hB.2.1)
          · exact iff_self_or_of_not (fun hB => ho hB.2.1)
          · simp [IdxMem_foldl_idxAppend, hinc, hap]
        · rw [if_neg hap]
          refine ⟨?_, ?_, ?_⟩
          · exact iff_self_or_of_not (fun hB => hc hB.2.1)
          · exact iff_self_or_of_not (fun hB => ho hB.2.1)
          · exact iff_self_or_of_not (fun hB => hap hB.2.1)
  · rw [if_pos (by simpa using hinc)]
    refine ⟨?_, ?_, ?_⟩ <;>
      exact iff_self_or_of_not (fun hB => hinc hB.1)

/-- Contribution of a campaign's rule list to the three indexes. -/
theorem IdxMem_foldl_indexRule (rules : List TargetingRule) (campaignID : Str)
    (st : IndexState) (v2 campaignID2 : Str) :
    (IdxMem (rules.foldl (indexRule campaignID) st).countryIndex v2 campaignID2 ↔
      IdxMem st.countryIndex v2 campaignID2 ∨
        ∃ r ∈ rules, r.ruleType = RuleType.ruleTypeInclude ∧
          r.dimension = "country".toList ∧ v2 ∈ r.values.map normLower ∧
          campaignID2 = campaignID) ∧
    (IdxMem (rules.foldl (indexRule campaignID) st).osIndex v2 campaignID2 ↔
      IdxMem st.osIndex v2 campaignID2 ∨
        ∃ r ∈ rules, r.ruleType = RuleType.ruleTypeInclude ∧
          r.dimension = "os".toList ∧ v2 ∈ r.values.map normLower ∧
          campaignID2 = campaignID) ∧
    (IdxMem (rules.foldl (indexRule campaignID) st).appIndex v2 campaignID2 ↔
      IdxMem st.appIndex v2 campaignID2 ∨
        ∃ r ∈ rules, r.ruleType = RuleType.ruleTypeInclude ∧
          r.dimension = "app".toList ∧ v2 ∈ r.values ∧
          campaignID2 = campaignID) := by
  induction rules generalizing st with
  | nil => simp
  | cons r rs ih =>
    rw [List.foldl_cons]
    refine ⟨?_, ?_, ?_⟩
    · rw [(ih (indexRule campaignID st r)).1,
        (IdxMem_indexRule campaignID st r v2 campaignID2).1]
      simp only [List.exists_mem_cons_iff]
      rw [or_assoc]
    · rw [(ih (indexRule campaignID st r)).2.1,
        (IdxMem_indexRule campaignID st r v2 campaignID2).2.1]
      simp only [List.exists_mem_cons_iff]
      rw [or_assoc]
    · rw [(ih (indexRule campaignID st r)).2.2,
        (IdxMem_indexRule campaignID st r v2 campaignID2).2.2]
      simp only [List.exists_mem_cons_iff]
      rw [or_assoc]

/-- Contribution of one campaign: nothing when inactive. -/
theorem IdxMem_indexCampaign (st : IndexState) (c : CampaignWithRules)
    (v2 campaignID2 : Str) :
    (IdxMem (indexCampaign st c).countryIndex v2 campaignID2 ↔
      IdxMem st.countryIndex v2 campaignID2 ∨
        (c.IsActive = true ∧
          ∃ r ∈ c.rules, r.ruleType = RuleType.ruleTypeInclude ∧
            r.dimension = "country".toList ∧ v2 ∈ r.values.map normLower ∧
            campaignID2 = c.campaign.id)) ∧
    (IdxMem (indexCampaign st c).osIndex v2 campaignID2 ↔
      IdxMem st.osIndex v2 campaignID2 ∨
        (c.IsActive = true ∧
          ∃ r ∈ c.rules, r.ruleType = RuleType.ruleTypeInclude ∧
            r.dimension = "os".toList ∧ v2 ∈ r.values.map normLower ∧
            campaignID2 = c.campaign.id)) ∧
    (IdxMem (indexCampaign st c).appIndex v2 campaignID2 ↔
      IdxMem st.appIndex v2 campaignID2 ∨
        (c.IsActive = true ∧
          ∃ r ∈ c.rules, r.ruleType = RuleType.ruleTypeInclude ∧
            r.dimension = "app".toList ∧ v2 ∈ r.values ∧
            campaignID2 = c.campaign.id)) := by
  unfold indexCampaign
  by_cases ha : c.IsActive = true
  · rw [if_neg (by simpa using ha)]
    refine ⟨?_, ?_, ?_⟩
    · rw [(IdxMem_foldl_indexRule c.rules c.campaign.id st v2 campaignID2).1]
      simp [ha]
    · rw [(IdxMem_foldl_indexRule c.rules c.campaign.id st v2 campaignID2).2.1]
      simp [ha]
    · rw [(IdxMem_foldl_indexRule c.rules c.campaign.id st v2 campaignID2).2.2]
      simp [ha]
  · rw [if_pos (by simpa using ha)]
    refine ⟨?_, ?_, ?_⟩ <;>
      exact iff_self_or_of_not (fun hB => ha hB.1)

/-- Contribution of a campaign list to the three indexes. -/
theorem IdxMem_foldl_indexCampaign (campaigns : List CampaignWithRules)
    (st : IndexState) (v2 campaignID2 : Str) :
    (IdxMem (campaigns.foldl indexCampaign st).countryIndex v2 campaignID2 ↔
      IdxMem st.countryIndex v2 campaignID2 ∨
        ∃ c ∈ campaigns, c.IsActive = true ∧
          ∃ r ∈ c.rules, r.ruleType = RuleType.ruleTypeInclude ∧
            r.dimension = "country".toList ∧ v2 ∈ r.values.map normLower ∧
            campaignID2 = c.campaign.id) ∧
    (IdxMem (campaigns.foldl indexCampaign st).osIndex v2 campaignID2 ↔
      IdxMem st.osIndex v2 campaignID2 ∨
        ∃ c ∈ campaigns, c.IsActive = true ∧
          ∃ r ∈ c.rules, r.ruleType = RuleType.ruleTypeInclude ∧
            r.dimension = "os".toList ∧ v2 ∈ r.values.map normLower ∧
            campaignID2 = c.campaign.id) ∧
    (IdxMem (campaigns.foldl indexCampaign st).appIndex v2 campaignID2 ↔
      IdxMem st.appIndex v2 campaignID2 ∨
        ∃ c ∈ campaigns, c.IsActive = true ∧
          ∃ r ∈ c.rules, r.ruleType = RuleType.ruleTypeInclude ∧
            r.dimension = "app".toList ∧ v2 ∈ r.values ∧
            campaignID2 = c.campaign.id) := by
  induction campaigns generalizing st with
  | nil => simp
  | cons c cs ih =>
    rw [List.foldl_cons]
    refine ⟨?_, ?_, ?_⟩
    · rw [(ih (indexCampaign st c)).1, (IdxMem_indexCampaign st c v2 campaignID2).1]
      simp only [List.exists_mem_cons_iff]
      rw [or_assoc]
    · rw [(ih (indexCampaign st c)).2.1, (IdxMem_indexCampaign st c v2 campaignID2).2.1]
      simp only [List.exists_mem_cons_iff]
      rw [or_assoc]
    · rw [(ih (indexCampaign st c)).2.2, (IdxMem_indexCampaign st c v2 campaignID2).2.2]
      simp only [List.exists_mem_cons_iff]
      rw [or_assoc]

/-- C3 (corrected): exact characterization of the materialized posting
lists — an identifier is in the posting list at (D, v) iff some active
campaign with that identifier has an include-rule on D with v among its
lowercase-and-trimmed values (D = country, os) or among its RAW values
(D = app); in particular no posting list receives contributions from
exclude-rules or inactive campaigns.  The claim's reading of v as the
NORMALIZED app value fails: app values are indexed raw, untrimmed. -/
theorem c3_posting_list_characterization (campaigns : List CampaignWithRules)
    (v campaignID : Str) :
    (IdxMem (buildAndCacheIndexes campaigns).countryIndex v campaignID ↔
      ∃ c ∈ campaigns, c.IsActive = true ∧
        ∃ r ∈ c.rules, r.ruleType = RuleType.ruleTypeInclude ∧
          r.dimension = "country".toList ∧ v ∈ r.values.map normLower ∧
          campaignID = c.campaign.id) ∧
    (IdxMem (buildAndCacheIndexes campaigns).osIndex v campaignID ↔
      ∃ c ∈ campaigns, c.IsActive = true ∧
        ∃ r ∈ c.rules, r.ruleType = RuleType.ruleTypeInclude ∧
          r.dimension = "os".toList ∧ v ∈ r.values.map normLower ∧
          campaignID = c.campaign.id) ∧
    (IdxMem (buildAndCacheIndexes campaigns).appIndex v campaignID ↔
      ∃ c ∈ campaigns, c.IsActive = true ∧
        ∃ r ∈ c.rules, r.ruleType = RuleType.ruleTypeInclude ∧
          r.dimension = "app".toList ∧ v ∈ r.values ∧
          campaignID = c.campaign.id) := by
  unfold buildAndCacheIndexes
  have h := IdxMem_foldl_indexCampaign campaigns emptyIndexState v campaignID
  have hnil : ∀ v2 cid2 : Str, ¬ IdxMem ([] : Index) v2 cid2 := fun v2 cid2 => IdxMem_nil v2 cid2
  refine ⟨?_, ?_, ?_⟩
  · rw [h.1]
    simp [emptyIndexState, hnil v campaignID]
  · rw [h.2.1]
    simp [emptyIndexState, hnil v campaignID]
  · rw [h.2.2]
    simp [emptyIndexState, hnil v campaignID]

/-- C3 counterexample: an active campaign whose app include-rule carries the
whitespace-padded value " com.x" (normalized form "com.x"); the posting
list at (app, "com.x") does not exist — the identifier was indexed under
the raw value " com.x" instead. -/
theorem c3_counterexample :
    padApp.IsActive = true ∧
      (∃ r ∈ padApp.rules, r.ruleType = RuleType.ruleTypeInclude ∧
        r.dimension = "app".toList ∧
        AppProcessor.normalizeValue (" com.x".toList) = "com.x".toList ∧
        " com.x".toList ∈ r.values) ∧
      idxLookup (buildAndCacheIndexes [padApp]).appIndex "com.x".toList = none := by
  refine ⟨by decide, ⟨padApp.rules.head (by decide), by decide, by decide, by decide,
    by decide, by decide⟩, by decide⟩
